import Mathlib

/-!
Shallow embedding of the CSS selector builder in `src/05-objects-tasks.js`
(`cssSelectorBuilder`).

The JavaScript program keeps, on the facade object, a single shared array
`validArr` of the kinds appended so far; every constructor produced by
`SelectorClassConstructor` resets that shared array to empty and every append
method (`element`, `id`, `class`, `attr`, `pseudoClass`, `pseudoElement`)
first extends the instance's own `classResStr` with the rendered piece, then
pushes its kind onto the shared array, and finally runs `validArrCheck` on the
whole shared array, throwing on a violation.  The embedding below mirrors
these steps: state is passed explicitly (the instance string plus the shared
array), JavaScript `indexOf` / `lastIndexOf` are modelled as `Int`-valued
functions returning `-1` on absence, and a throw is an `Option Cause` carried
next to the already-mutated state (the JS methods mutate before the check
throws, so the mutation is always committed).
-/

namespace CssBuilder

/-- The six selector piece kinds.  The JS kind named `class` is spelled
`cls` because `class` is a reserved word in Lean. -/
inductive Kind where
  | element
  | id
  | cls
  | attr
  | pseudoClass
  | pseudoElement
deriving DecidableEq, Repr

/-- Position of a kind inside `sampleOrder` (the canonical precedence used by
the order check). -/
def rank : Kind → Nat
  | .element => 0
  | .id => 1
  | .cls => 2
  | .attr => 3
  | .pseudoClass => 4
  | .pseudoElement => 5

/-- `this.sampleOccur = ['element', 'id', 'pseudoElement']`. -/
def sampleOccur : List Kind := [.element, .id, .pseudoElement]

/-- The `this.sampleOrder` list of the constructor: element, id, class,
attr, pseudoClass, pseudoElement, in that order. -/
def sampleOrder : List Kind :=
  [.element, .id, .cls, .attr, .pseudoClass, .pseudoElement]

/-- JavaScript `arr.indexOf(k)`: index of the first occurrence, `-1` when
absent. -/
def jsIndexOf : List Kind → Kind → Int
  | [], _ => -1
  | a :: rest, k =>
    if a = k then 0
    else if jsIndexOf rest k = -1 then -1 else jsIndexOf rest k + 1

/-- JavaScript `arr.lastIndexOf(k)`: index of the last occurrence, `-1` when
absent. -/
def jsLastIndexOf : List Kind → Kind → Int
  | [], _ => -1
  | a :: rest, k =>
    if jsLastIndexOf rest k = -1 then (if a = k then 0 else -1)
    else jsLastIndexOf rest k + 1

/-- The two throw sites of `validArrCheck`: the singleton loop and the order
loop. -/
inductive Cause where
  | duplicateSingleton
  | outOfOrder
deriving DecidableEq, Repr

/-- First loop of `validArrCheck`: for each kind in `sampleOccur`, throw when
`arr.indexOf(item) !== arr.lastIndexOf(item)`. -/
def singletonViolation (arr : List Kind) : Bool :=
  sampleOccur.any fun item => jsIndexOf arr item != jsLastIndexOf arr item

/-- Body of the order loop: for the pair `(item, sliceEl)` the code throws
when `arr.indexOf(sliceEl) !== -1 && arr.indexOf(item) > arr.indexOf(sliceEl)`. -/
def orderViolationAt (arr : List Kind) (item sliceEl : Kind) : Bool :=
  (jsIndexOf arr sliceEl != -1) && decide (jsIndexOf arr item > jsIndexOf arr sliceEl)

/-- Second loop of `validArrCheck`:
`sampleOrder.forEach((item, idx, initArr) => initArr.slice(idx).forEach(...))`.
At the iteration whose current element is `item`, `initArr.slice(idx)` is the
suffix starting at `item` itself. -/
def orderViolationAux (arr : List Kind) : List Kind → Bool
  | [] => false
  | item :: rest =>
    ((item :: rest).any fun sliceEl => orderViolationAt arr item sliceEl)
      || orderViolationAux arr rest

/-- The order loop run over all of `sampleOrder`. -/
def orderViolation (arr : List Kind) : Bool :=
  orderViolationAux arr sampleOrder

/-- `validArrCheck(arr)`: the singleton loop runs first, so a duplicate
singleton is reported even when the order is also violated; `none` means the
method returned without throwing. -/
def validArrCheck (arr : List Kind) : Option Cause :=
  if singletonViolation arr then some .duplicateSingleton
  else if orderViolation arr then some .outOfOrder
  else none

/-- Rendered text of one piece, as concatenated by the six append methods:
`element` appends `str`, `id` appends `#str`, `class` appends `.str`,
`attr` appends `[str]`, `pseudoClass` appends `:str`,
`pseudoElement` appends `::str`. -/
def render (k : Kind) (v : String) : String :=
  match k with
  | .element => v
  | .id => "#" ++ v
  | .cls => "." ++ v
  | .attr => "[" ++ v ++ "]"
  | .pseudoClass => ":" ++ v
  | .pseudoElement => "::" ++ v

/-- Per-instance state of a fragment selector: its `classResStr` field. -/
structure Selector where
  classResStr : String
deriving DecidableEq, Repr

/-- `stringify()` of a fragment selector returns `this.classResStr`. -/
def Selector.stringify (s : Selector) : String := s.classResStr

/-- Result of one append method call: the instance state and shared array
after the call (mutated even when the call throws, because the methods mutate
before running `validArrCheck`), plus the throw outcome. -/
structure BuildState where
  sel : Selector
  validArr : List Kind
  err : Option Cause
deriving DecidableEq, Repr

/-- One append method call (`element` / `id` / `class` / `attr` /
`pseudoClass` / `pseudoElement`) of kind `k` with payload `v`, on an instance
whose string is `sel` while the shared array holds `arr`:
`this.classResStr += rendered; validArr.push(kind); this.validArrCheck(validArr)`. -/
def appendPiece (sel : Selector) (arr : List Kind) (k : Kind) (v : String) :
    BuildState :=
  let sel' : Selector := ⟨sel.classResStr ++ render k v⟩
  let arr' := arr ++ [k]
  ⟨sel', arr', validArrCheck arr'⟩

/-- A facade entry point (`cssSelectorBuilder.element(value)` etc.): the
constructor of the anonymous class sets `classResStr = ''`, resets the shared
array (`cssSelectorBuilder.validArr.length = 0`) and dispatches to the append
method of kind `k`. -/
def seed (k : Kind) (v : String) : BuildState :=
  appendPiece ⟨""⟩ [] k v

/-- Chained append calls on one instance with no other selector constructed
in between: the shared array travels along.  A throw aborts the chain (the
remaining calls never run). -/
def buildFrom (st : BuildState) : List (Kind × String) → BuildState
  | [] => st
  | (k, v) :: rest =>
    if st.err.isSome then st
    else buildFrom (appendPiece st.sel st.validArr k v) rest

/-- A whole chain `facade.k₁(v₁).k₂(v₂)...` starting from a facade entry
point.  The empty chain is unreachable through the facade and denotes the
pristine state. -/
def build : List (Kind × String) → BuildState
  | [] => ⟨⟨""⟩, [], none⟩
  | (k, v) :: rest => buildFrom (seed k v) rest

/-- Concatenation of rendered pieces in call order, with no separator. -/
def renderAll : List (Kind × String) → String
  | [] => ""
  | p :: rest => render p.1 p.2 ++ renderAll rest

/-- A selector value as seen by `combine`: either a fragment-selector
instance (which carries a `classResStr` field and no `combResStr` field) or
a combinator node produced by `CombineClassConstructor` (which stores the
three constructor arguments plus the `combResStr` string computed once in its
constructor). -/
inductive SelVal where
  | frag (sel : Selector)
  | node (selector1 : SelVal) (combinator : String) (selector2 : SelVal)
      (combResStr : String)
deriving DecidableEq, Repr

/-- How the combinator constructor turns one operand into text.  The code
tests `sel.classResStr` for truthiness: a fragment with a nonempty string
contributes that string; a fragment with the empty string (falsy) falls into
the `else` branch, where `sel.combResStr` is the JS value `undefined` and
`+=` appends the literal text `undefined`; a combinator node has no
`classResStr` field (undefined, falsy) and contributes its `combResStr`. -/
def operandStr : SelVal → String
  | .frag s => if s.classResStr = "" then "undefined" else s.classResStr
  | .node _ _ _ c => c

/-- The string computed by the node's `combine` method:
`operand1 ++ ' ' ++ comb ++ ' ' ++ operand2`, one literal space on each side
of the token whatever the token is. -/
def combineStr (sel1 : SelVal) (comb : String) (sel2 : SelVal) : String :=
  operandStr sel1 ++ " " ++ comb ++ " " ++ operandStr sel2

/-- `cssSelectorBuilder.combine(selector1, combinator, selector2)`: the
constructor of the anonymous class stores the three arguments and computes
`combResStr` once, at construction. -/
def combine (selector1 : SelVal) (combinator : String) (selector2 : SelVal) :
    SelVal :=
  .node selector1 combinator selector2 (combineStr selector1 combinator selector2)

/-- `stringify()` of a selector value: a fragment returns `classResStr`, a
combinator node returns the stored `combResStr`. -/
def SelVal.stringify : SelVal → String
  | .frag s => s.classResStr
  | .node _ _ _ c => c

/-- The `combine` facade call together with the shared validation array.  The
constructor body of `CombineClassConstructor` contains no `throw` and never
reads or writes `cssSelectorBuilder.validArr`, so the call always returns a
node (`Except.ok`, never an error) and returns the shared array unchanged. -/
def combineCall (arr : List Kind) (selector1 : SelVal) (combinator : String)
    (selector2 : SelVal) : Except Cause SelVal × List Kind :=
  (Except.ok (combine selector1 combinator selector2), arr)

/-- Model of the JavaScript aliasing around a combinator node: the node keeps
references to its operand objects, so mutating those objects afterwards (for
example by further append calls on a fragment operand) is visible through the
`selector1` / `selector2` fields, while the `combResStr` field computed at
construction is untouched. -/
def setOperands : SelVal → SelVal → SelVal → SelVal
  | .node _ c _ s, l', r' => .node l' c r' s
  | v, _, _ => v

/-- The whole mutable state of the program: the shared
`cssSelectorBuilder.validArr` plus the `classResStr` of every fragment
selector constructed so far, in construction order. -/
structure World where
  validArr : List Kind
  instances : List Selector
deriving DecidableEq, Repr

/-- One observable fragment-selector operation: a facade call constructing a
new selector, or a chained append on the `i`-th selector constructed so far. -/
inductive Cmd where
  | newSel (k : Kind) (v : String)
  | append (i : Nat) (k : Kind) (v : String)
deriving DecidableEq, Repr

/-- Effect of one operation on the whole program state, together with its
outcome (`none` = returned normally, `some c` = threw with cause `c`).
An `append` on an index never handed out leaves the world unchanged; the
claims only use indices of existing instances. -/
def step (w : World) : Cmd → World × Option Cause
  | .newSel k v =>
    let r := seed k v
    (⟨r.validArr, w.instances ++ [r.sel]⟩, r.err)
  | .append i k v =>
    match w.instances[i]? with
    | none => (w, none)
    | some sel =>
      let r := appendPiece sel w.validArr k v
      (⟨r.validArr, w.instances.set i r.sel⟩, r.err)

/-- Run a sequence of operations, keeping only the state. -/
def runWorld (w : World) : List Cmd → World
  | [] => w
  | c :: cs => runWorld (step w c).1 cs

/-- Outcome of one more operation after a warm-up sequence. -/
def outcomeAfter (w : World) (cs : List Cmd) (c : Cmd) : Option Cause :=
  (step (runWorld w cs) c).2

/-- The pristine program state: empty shared array, no instances yet. -/
def initWorld : World := ⟨[], []⟩

/-- Modelled from the spec's words, for comparison with the code's check: a
kind sequence "satisfies the singleton and ordering constraints" when the
kinds are non-decreasing under the precedence
`element < id < class < attribute < pseudoClass < pseudoElement`
(Invariant B) and each of the singleton kinds `element`, `id`,
`pseudoElement` occurs at most once (Invariant A). -/
def specValidSeq (ks : List Kind) : Prop :=
  List.Pairwise (fun a b => rank a ≤ rank b) ks ∧
    ∀ k ∈ sampleOccur, ks.count k ≤ 1

/-- A selector value whose fragment operand string is truthy in JS terms:
a fragment with nonempty `classResStr`, or any combinator node. -/
def fragNonempty : SelVal → Bool
  | .frag s => s.classResStr != ""
  | .node _ _ _ _ => true

lemma jsIndexOf_cases (arr : List Kind) (k : Kind) :
    (k ∉ arr ∧ jsIndexOf arr k = -1) ∨
      ∃ (n : Nat) (hn : n < arr.length),
        jsIndexOf arr k = (n : Int) ∧ arr[n] = k := by
  induction arr with
  | nil => left; simp [jsIndexOf]
  | cons a rest ih =>
    by_cases h : a = k
    · right
      exact ⟨0, by simp, by simp [jsIndexOf, h], by simpa using h⟩
    · rcases ih with ⟨hmem, hidx⟩ | ⟨n, hn, hidx, hget⟩
      · left
        refine ⟨?_, by simp [jsIndexOf, h, hidx]⟩
        simp only [List.mem_cons, not_or]
        exact ⟨fun hk => h hk.symm, hmem⟩
      · right
        refine ⟨n + 1, by simpa using hn, ?_, by simpa using hget⟩
        rw [jsIndexOf, if_neg h, if_neg (by rw [hidx]; omega), hidx]
        push_cast
        ring

lemma jsIndexOf_eq_neg_one (arr : List Kind) (k : Kind) (h : k ∉ arr) :
    jsIndexOf arr k = -1 := by
  rcases jsIndexOf_cases arr k with ⟨_, hidx⟩ | ⟨n, hn, _, hget⟩
  · exact hidx
  · exact absurd (hget ▸ List.getElem_mem hn) h

lemma jsIndexOf_mem (arr : List Kind) (k : Kind) (h : k ∈ arr) :
    ∃ (n : Nat) (hn : n < arr.length),
      jsIndexOf arr k = (n : Int) ∧ arr[n] = k := by
  rcases jsIndexOf_cases arr k with ⟨hmem, _⟩ | hx
  · exact absurd h hmem
  · exact hx

lemma jsLastIndexOf_eq_neg_one (arr : List Kind) (k : Kind) (h : k ∉ arr) :
    jsLastIndexOf arr k = -1 := by
  induction arr with
  | nil => rfl
  | cons a rest ih =>
    simp only [List.mem_cons, not_or] at h
    rw [jsLastIndexOf, ih h.2, if_pos rfl, if_neg (fun hk => h.1 hk.symm)]

lemma jsIndexOf_eq_jsLastIndexOf (arr : List Kind) (k : Kind)
    (h : arr.count k ≤ 1) : jsIndexOf arr k = jsLastIndexOf arr k := by
  induction arr with
  | nil => rfl
  | cons a rest ih =>
    by_cases hak : a = k
    · subst hak
      rw [List.count_cons_self] at h
      have hrest : a ∉ rest := List.count_eq_zero.mp (by omega)
      rw [jsIndexOf, jsLastIndexOf, jsLastIndexOf_eq_neg_one rest a hrest,
        if_pos rfl, if_pos rfl, if_pos rfl]
    · have h' : rest.count k ≤ 1 := by
        rwa [List.count_cons_of_ne (fun hk => hak hk.symm)] at h
      rw [jsIndexOf, jsLastIndexOf, if_neg hak, ← ih h']
      split <;> rfl

lemma singletonViolation_eq_false (arr : List Kind)
    (h : ∀ k ∈ sampleOccur, arr.count k ≤ 1) :
    singletonViolation arr = false := by
  rw [singletonViolation, List.any_eq_false]
  intro item hitem
  simp [jsIndexOf_eq_jsLastIndexOf arr item (h item hitem)]

lemma orderViolationAux_of (arr : List Kind) {x y : Kind} (t : List Kind)
    (l : List Kind) (hsuf : (x :: t) <:+ l) (hy : y ∈ x :: t)
    (hP : orderViolationAt arr x y = true) :
    orderViolationAux arr l = true := by
  induction l with
  | nil => simp at hsuf
  | cons a rest ih =>
    rcases List.suffix_cons_iff.mp hsuf with heq | hsuf'
    · injection heq with h1 h2
      subst h1; subst h2
      rw [orderViolationAux, Bool.or_eq_true]
      exact Or.inl (List.any_eq_true.mpr ⟨y, hy, hP⟩)
    · rw [orderViolationAux, Bool.or_eq_true]
      exact Or.inr (ih hsuf')

lemma orderViolation_eq_true_iff (arr : List Kind) :
    orderViolation arr = true ↔
      ∃ x y : Kind, rank x < rank y ∧ jsIndexOf arr y ≠ -1 ∧
        jsIndexOf arr x > jsIndexOf arr y := by
  constructor
  · intro h
    simp only [orderViolation, sampleOrder, orderViolationAux, List.any_cons,
      List.any_nil, Bool.or_eq_true, Bool.or_false, orderViolationAt,
      Bool.and_eq_true, bne_iff_ne, ne_eq, decide_eq_true_eq, gt_iff_lt,
      lt_self_iff_false, and_false, false_or, or_false] at h
    rcases h with ((h|h|h|h|h)|(h|h|h|h)|(h|h|h)|(h|h)|h) <;>
      exact ⟨_, _, by decide, h.1, h.2⟩
  · rintro ⟨x, y, hlt, hy, hgt⟩
    have hP : orderViolationAt arr x y = true := by
      rw [orderViolationAt]
      simp [hy, hgt]
    rw [orderViolation]
    cases x <;> cases y <;>
      first
        | exact absurd hlt (by decide)
        | exact orderViolationAux_of arr _ sampleOrder ⟨[], rfl⟩ (by decide) hP
        | exact orderViolationAux_of arr _ sampleOrder ⟨[Kind.element], rfl⟩
            (by decide) hP
        | exact orderViolationAux_of arr _ sampleOrder
            ⟨[Kind.element, Kind.id], rfl⟩ (by decide) hP
        | exact orderViolationAux_of arr _ sampleOrder
            ⟨[Kind.element, Kind.id, Kind.cls], rfl⟩ (by decide) hP
        | exact orderViolationAux_of arr _ sampleOrder
            ⟨[Kind.element, Kind.id, Kind.cls, Kind.attr], rfl⟩ (by decide) hP

lemma orderViolation_eq_false_of_sorted (arr : List Kind)
    (h : List.Pairwise (fun a b => rank a ≤ rank b) arr) :
    orderViolation arr = false := by
  rw [Bool.eq_false_iff]
  intro hv
  obtain ⟨x, y, hlt, hy, hgt⟩ := (orderViolation_eq_true_iff arr).mp hv
  have hymem : y ∈ arr := by
    by_contra hc
    exact hy (jsIndexOf_eq_neg_one arr y hc)
  obtain ⟨ny, hny, hjy, hgety⟩ := jsIndexOf_mem arr y hymem
  have hxmem : x ∈ arr := by
    by_contra hc
    rw [jsIndexOf_eq_neg_one arr x hc, hjy] at hgt
    omega
  obtain ⟨nx, hnx, hjx, hgetx⟩ := jsIndexOf_mem arr x hxmem
  have hnlt : ny < nx := by
    rw [hjx, hjy] at hgt
    exact_mod_cast hgt
  have hr := (List.pairwise_iff_getElem.mp h) ny nx hny hnx hnlt
  rw [hgety, hgetx] at hr
  omega

lemma validArrCheck_eq_none_of_specValid (arr : List Kind)
    (h : specValidSeq arr) : validArrCheck arr = none := by
  rw [validArrCheck, singletonViolation_eq_false arr h.2,
    orderViolation_eq_false_of_sorted arr h.1]
  rfl

lemma specValidSeq_append_left (l₁ l₂ : List Kind)
    (h : specValidSeq (l₁ ++ l₂)) : specValidSeq l₁ := by
  obtain ⟨hp, hc⟩ := h
  refine ⟨List.Pairwise.sublist (List.sublist_append_left l₁ l₂) hp, ?_⟩
  intro k hk
  exact le_trans (List.Sublist.count_le (List.sublist_append_left l₁ l₂) k)
    (hc k hk)

lemma buildFrom_spec (ps : List (Kind × String)) :
    ∀ st : BuildState, st.err = none →
      specValidSeq (st.validArr ++ ps.map Prod.fst) →
      (buildFrom st ps).err = none ∧
      (buildFrom st ps).sel.classResStr = st.sel.classResStr ++ renderAll ps ∧
      (buildFrom st ps).validArr = st.validArr ++ ps.map Prod.fst := by
  induction ps with
  | nil =>
    intro st herr _
    refine ⟨herr, ?_, ?_⟩
    · rw [buildFrom, renderAll, String.append_empty]
    · rw [buildFrom, List.map_nil, List.append_nil]
  | cons p rest ih =>
    intro st herr hvalid
    obtain ⟨k, v⟩ := p
    have hassoc : st.validArr ++ ((k, v) :: rest).map Prod.fst
        = (st.validArr ++ [k]) ++ rest.map Prod.fst := by
      simp
    rw [hassoc] at hvalid
    have herr' : (appendPiece st.sel st.validArr k v).err = none :=
      validArrCheck_eq_none_of_specValid _
        (specValidSeq_append_left _ _ hvalid)
    have hbf : buildFrom st ((k, v) :: rest)
        = buildFrom (appendPiece st.sel st.validArr k v) rest := by
      rw [buildFrom, herr]
      rfl
    obtain ⟨ih1, ih2, ih3⟩ := ih (appendPiece st.sel st.validArr k v) herr'
      (by exact hvalid)
    refine ⟨hbf ▸ ih1, ?_, ?_⟩
    · rw [hbf, ih2]
      show st.sel.classResStr ++ render k v ++ renderAll rest
        = st.sel.classResStr ++ (render k v ++ renderAll rest)
      rw [String.append_assoc]
    · rw [hbf, ih3]
      show st.validArr ++ [k] ++ rest.map Prod.fst
        = st.validArr ++ (k :: rest.map Prod.fst)
      simp

lemma build_spec (ps : List (Kind × String))
    (h : specValidSeq (ps.map Prod.fst)) :
    (build ps).err = none ∧ (build ps).sel.stringify = renderAll ps ∧
    (build ps).validArr = ps.map Prod.fst := by
  cases ps with
  | nil => exact ⟨rfl, rfl, rfl⟩
  | cons p rest =>
    obtain ⟨k, v⟩ := p
    have hseed_err : (seed k v).err = none := by
      have hpre := specValidSeq_append_left [k] (rest.map Prod.fst)
        (by simpa using h)
      exact validArrCheck_eq_none_of_specValid [k] hpre
    obtain ⟨h1, h2, h3⟩ := buildFrom_spec rest (seed k v) hseed_err
      (by simpa using h)
    refine ⟨h1, ?_, ?_⟩
    · rw [build]
      show (buildFrom (seed k v) rest).sel.classResStr = renderAll ((k, v) :: rest)
      rw [h2]
      show "" ++ render k v ++ renderAll rest = render k v ++ renderAll rest
      rw [String.append_assoc]
      exact String.empty_append _
    · rw [build, h3]
      rfl

lemma jsIndexOf_append_of_mem (l₁ l₂ : List Kind) (k : Kind) (h : k ∈ l₁) :
    jsIndexOf (l₁ ++ l₂) k = jsIndexOf l₁ k := by
  induction l₁ with
  | nil => simp at h
  | cons a rest ih =>
    by_cases hak : a = k
    · simp [jsIndexOf, hak]
    · have hk : k ∈ rest := by
        rcases List.mem_cons.mp h with h1 | h1
        · exact absurd h1.symm hak
        · exact h1
      simp only [List.cons_append, jsIndexOf, List.append_eq]
      rw [if_neg hak, if_neg hak, ih hk]

lemma jsLastIndexOf_append_self (l : List Kind) (k : Kind) :
    jsLastIndexOf (l ++ [k]) k = (l.length : Int) := by
  induction l with
  | nil => simp [jsLastIndexOf]
  | cons a rest ih =>
    rw [List.cons_append, jsLastIndexOf, ih, if_neg (by omega)]
    simp only [List.length_cons]
    push_cast
    ring

lemma singletonViolation_append_of_mem (arr : List Kind) (k : Kind)
    (hk : k ∈ sampleOccur) (hmem : k ∈ arr) :
    singletonViolation (arr ++ [k]) = true := by
  rw [singletonViolation, List.any_eq_true]
  refine ⟨k, hk, ?_⟩
  simp only [bne_iff_ne, ne_eq]
  rw [jsIndexOf_append_of_mem arr [k] k hmem, jsLastIndexOf_append_self]
  obtain ⟨n, hn, heq, _⟩ := jsIndexOf_mem arr k hmem
  rw [heq]
  intro hc
  rw [Int.ofNat_inj.mp hc] at hn
  omega

lemma specValidSeq_const (k : Kind) (hk : ∀ s ∈ sampleOccur, s ≠ k)
    (l : List Kind) (hl : ∀ x ∈ l, x = k) : specValidSeq l := by
  constructor
  · rw [List.pairwise_iff_getElem]
    intro i j hi hj _
    rw [hl _ (List.getElem_mem hi), hl _ (List.getElem_mem hj)]
  · intro s hs
    have hnot : s ∉ l := fun hmem => hk s hs (hl s hmem)
    rw [List.count_eq_zero.mpr hnot]
    omega

/-- Claim C1, counterexample: `element('a')` followed by `element('b')` on the
same instance throws, yet the serialized string has become `"ab"` (the method
concatenated before validating) and the shared kind-history has grown; the
failed append does not leave the state unchanged. -/
theorem failedAppend_mutates_counterexample :
    ((appendPiece (seed Kind.element "a").sel (seed Kind.element "a").validArr
      Kind.element "b").err).isSome = true ∧
    (appendPiece (seed Kind.element "a").sel (seed Kind.element "a").validArr
      Kind.element "b").sel.stringify ≠ (seed Kind.element "a").sel.stringify ∧
    (appendPiece (seed Kind.element "a").sel (seed Kind.element "a").validArr
      Kind.element "b").validArr ≠ (seed Kind.element "a").validArr := by
  decide

/-- Claim C1, amended: an append that raises has already committed its
mutation.  After any failed append the serialized string equals the previous
string followed by the rendered rejected piece, and the shared kind-history
equals the previous history with the rejected kind pushed (no rollback, so
the state is not the pre-call state). -/
theorem failedAppend_commits_mutation (sel : Selector) (arr : List Kind)
    (k : Kind) (v : String)
    (_h : ((appendPiece sel arr k v).err).isSome = true) :
    (appendPiece sel arr k v).sel.stringify = sel.stringify ++ render k v ∧
    (appendPiece sel arr k v).validArr = arr ++ [k] :=
  ⟨rfl, rfl⟩

/-- Witness for the amended C1 theorem at a concrete failing append. -/
theorem failedAppend_commits_mutation_witness :
    (appendPiece ⟨"a"⟩ [Kind.element] Kind.element "b").sel.stringify = "ab" ∧
    (appendPiece ⟨"a"⟩ [Kind.element] Kind.element "b").validArr
      = [Kind.element, Kind.element] := by
  have h := failedAppend_commits_mutation ⟨"a"⟩ [Kind.element] Kind.element "b"
    (by decide)
  exact ⟨by rw [h.1]; decide, by rw [h.2]; rfl⟩

/-- Claim C2, counterexample: on instance 0 built by `id('a')`, the very same
next call `id('b')` throws DuplicateSingleton when nothing happened in
between, but returns normally when another selector (`element('x')`) was
constructed in between, because that construction reset the shared
`validArr`.  Outcomes on one instance are not independent of operations on
other instances. -/
theorem sharedValidArr_interference_counterexample :
    outcomeAfter initWorld [Cmd.newSel Kind.id "a"] (Cmd.append 0 Kind.id "b")
      = some Cause.duplicateSingleton ∧
    outcomeAfter initWorld [Cmd.newSel Kind.id "a", Cmd.newSel Kind.element "x"]
      (Cmd.append 0 Kind.id "b") = none := by
  decide

/-- Claim C2, amended: the outcome of an append is a function of the shared
validation array and the appended kind alone; it does not depend on the
instance's own accumulated string or on the payload.  (Because the array is
shared and reset by every construction, operations on other instances can
change it, and with it the outcome — see the counterexample.) -/
theorem append_outcome_depends_only_on_shared_array (sel sel' : Selector)
    (arr : List Kind) (k : Kind) (v v' : String) :
    (appendPiece sel arr k v).err = (appendPiece sel' arr k v').err := rfl

/-- Claim C3, counterexample: the chain `class('a').attr('b').class('c')`
has the last occurrence of `class` (index 2) after the first occurrence of
`attr` (index 1) with `class` of strictly lower precedence, so the claim
demands an OutOfOrder throw, yet every append returns normally and the chain
serializes to `".a[b].c"`. -/
theorem orderCheck_firstOccurrence_counterexample :
    (build [(Kind.cls, "a"), (Kind.attr, "b"), (Kind.cls, "c")]).err = none ∧
    rank Kind.cls < rank Kind.attr ∧
    jsIndexOf (build [(Kind.cls, "a"), (Kind.attr, "b"), (Kind.cls, "c")]).validArr
      Kind.attr ≠ -1 ∧
    jsLastIndexOf (build [(Kind.cls, "a"), (Kind.attr, "b"), (Kind.cls, "c")]).validArr
      Kind.cls
      > jsIndexOf (build [(Kind.cls, "a"), (Kind.attr, "b"), (Kind.cls, "c")]).validArr
        Kind.attr ∧
    (build [(Kind.cls, "a"), (Kind.attr, "b"), (Kind.cls, "c")]).sel.stringify
      = ".a[b].c" := by
  decide

/-- Claim C3, amended: the order check compares FIRST occurrences on both
sides (`indexOf`, not `lastIndexOf`).  When the singleton loop does not fire,
the check reports OutOfOrder exactly when some kind X of strictly lower
precedence than some present kind Y has its first occurrence after Y's first
occurrence. -/
theorem outOfOrder_iff_firstOccurrence_inversion (arr : List Kind)
    (hs : singletonViolation arr = false) :
    validArrCheck arr = some Cause.outOfOrder ↔
      ∃ x y : Kind, rank x < rank y ∧ jsIndexOf arr y ≠ -1 ∧
        jsIndexOf arr x > jsIndexOf arr y := by
  rw [validArrCheck]
  simp only [hs, Bool.false_eq_true, if_false]
  by_cases h : orderViolation arr = true
  · simp only [h, if_true]
    exact ⟨fun _ => (orderViolation_eq_true_iff arr).mp h, fun _ => trivial⟩
  · have h' : orderViolation arr = false := by
      rwa [Bool.not_eq_true] at h
    simp only [h', Bool.false_eq_true, if_false]
    constructor
    · intro hc
      exact absurd hc (by simp)
    · intro hx
      exact absurd ((orderViolation_eq_true_iff arr).mpr hx) h

/-- Witness for the amended C3 theorem: in the shared history `[id, element]`
the kind `element` (lower precedence) first occurs after `id`, and the check
reports OutOfOrder. -/
theorem outOfOrder_iff_firstOccurrence_inversion_witness :
    validArrCheck [Kind.id, Kind.element] = some Cause.outOfOrder :=
  (outOfOrder_iff_firstOccurrence_inversion [Kind.id, Kind.element]
    (by decide)).mpr
    ⟨Kind.element, Kind.id, by decide, by decide, by decide⟩

/-- Claim C4, counterexample: with the already-built selector produced by
`element` on the empty payload
(whose serialization is the empty string) as left operand, the combinator
node serializes with the literal text `undefined` in place of that operand,
not with the operand's serialized (empty) string. -/
theorem combine_empty_operand_counterexample :
    (seed Kind.element "").err = none ∧
    (combine (SelVal.frag (seed Kind.element "").sel) "+"
      (SelVal.frag (seed Kind.element "a").sel)).stringify
      ≠ (SelVal.frag (seed Kind.element "").sel).stringify ++ " " ++ "+" ++ " "
        ++ (SelVal.frag (seed Kind.element "a").sel).stringify := by
  decide

/-- Claim C4, amended: for every combinator token (of any content, including
a space) and every two selector values each of which is either a combinator
node or a fragment with a NONEMPTY serialized string, the combination
serializes to `serialize(left) ++ " " ++ token ++ " " ++ serialize(right)`,
one space on each side of the token.  (A fragment operand serializing to the
empty string is replaced by the text `undefined` — see the counterexample.) -/
theorem combine_serialization_of_truthy_operands (l r : SelVal) (c : String)
    (hl : fragNonempty l = true) (hr : fragNonempty r = true) :
    (combine l c r).stringify
      = l.stringify ++ " " ++ c ++ " " ++ r.stringify := by
  cases l <;> cases r <;>
    simp_all [fragNonempty, combine, combineStr, operandStr, SelVal.stringify]

/-- Witness for the amended C4 theorem on concrete nonempty operands. -/
theorem combine_serialization_of_truthy_operands_witness :
    (combine (SelVal.frag ⟨"div"⟩) "+" (SelVal.frag ⟨".a"⟩)).stringify
      = "div + .a" := by
  have h := combine_serialization_of_truthy_operands (SelVal.frag ⟨"div"⟩)
    (SelVal.frag ⟨".a"⟩) "+" (by decide) (by decide)
  rw [h]
  decide

/-- Claim C5: for every kind sequence satisfying the spec's singleton and
ordering constraints, the chained build raises nothing and the final
serialization is exactly the concatenation of the rendered pieces in call
order with no separators. -/
theorem build_serializes_valid_sequences (ps : List (Kind × String))
    (h : specValidSeq (ps.map Prod.fst)) :
    (build ps).err = none ∧ (build ps).sel.stringify = renderAll ps :=
  ⟨(build_spec ps h).1, (build_spec ps h).2.1⟩

/-- Witness for C5: `element('a').attr('href').pseudoClass('focus')` builds
without error and serializes to `a[href]:focus`. -/
theorem build_serializes_valid_sequences_witness :
    (build [(Kind.element, "a"), (Kind.attr, "href"),
      (Kind.pseudoClass, "focus")]).err = none ∧
    (build [(Kind.element, "a"), (Kind.attr, "href"),
      (Kind.pseudoClass, "focus")]).sel.stringify = "a[href]:focus" := by
  have h := build_serializes_valid_sequences
    [(Kind.element, "a"), (Kind.attr, "href"), (Kind.pseudoClass, "focus")]
    ⟨by decide, by decide⟩
  exact ⟨h.1, by rw [h.2]; decide⟩

/-- Claim C6, counterexample: instance 0 is built by `id('a')`, so its own
piece history holds one `id`; another selector `element('x')` is then
constructed; the subsequent `id('b')` on instance 0 — whose own history now
gets a second `id` — raises nothing at all (the check only sees the shared
array, which the intervening construction reset), and instance 0 ends up
serializing to `#a#b`. -/
theorem duplicateSingleton_own_history_counterexample :
    outcomeAfter initWorld [Cmd.newSel Kind.id "a", Cmd.newSel Kind.element "x"]
      (Cmd.append 0 Kind.id "b") = none ∧
    (runWorld initWorld [Cmd.newSel Kind.id "a", Cmd.newSel Kind.element "x",
      Cmd.append 0 Kind.id "b"]).instances[0]? = some ⟨"#a#b"⟩ := by
  decide

/-- Claim C6, amended: appending a singleton kind (element, id,
pseudoElement) raises DuplicateSingleton whenever that kind is already
present in the SHARED kind-history (which coincides with the selector's own
history only while no other selector has been constructed since this one). -/
theorem append_duplicate_singleton_raises (sel : Selector) (arr : List Kind)
    (k : Kind) (v : String) (hk : k ∈ sampleOccur) (hmem : k ∈ arr) :
    (appendPiece sel arr k v).err = some Cause.duplicateSingleton := by
  show validArrCheck (arr ++ [k]) = some Cause.duplicateSingleton
  rw [validArrCheck, singletonViolation_append_of_mem arr k hk hmem]
  rfl

/-- Witness for the amended C6 theorem: a second `id` append with `id`
already in the shared history raises DuplicateSingleton. -/
theorem append_duplicate_singleton_raises_witness :
    (appendPiece ⟨"#a"⟩ [Kind.id] Kind.id "b").err
      = some Cause.duplicateSingleton :=
  append_duplicate_singleton_raises ⟨"#a"⟩ [Kind.id] Kind.id "b"
    (by decide) (by decide)

/-- Claim C7: the repeatable kinds class, attr and pseudoClass accept any
number of consecutive appends of that same kind: the whole chain raises
nothing and serializes to the concatenation of the rendered pieces
(e.g. `class('a').class('b').class('c')` gives `.a.b.c`). -/
theorem repeatable_kinds_accept_repetition (k : Kind)
    (hk : k = Kind.cls ∨ k = Kind.attr ∨ k = Kind.pseudoClass)
    (v : String) (vs : List String) :
    (build ((k, v) :: vs.map fun w => (k, w))).err = none ∧
    (build ((k, v) :: vs.map fun w => (k, w))).sel.stringify
      = renderAll ((k, v) :: vs.map fun w => (k, w)) := by
  have hconst : ∀ x ∈ ((k, v) :: vs.map fun w => (k, w)).map Prod.fst,
      x = k := by
    intro x hx
    simp only [List.map_cons, List.map_map, List.mem_cons, List.mem_map,
      Function.comp] at hx
    rcases hx with h1 | ⟨w, _, h2⟩
    · exact h1
    · exact h2.symm
  have hocc : ∀ s ∈ sampleOccur, s ≠ k := by
    rcases hk with h | h | h <;> subst h <;> decide
  have hvalid := specValidSeq_const k hocc _ hconst
  exact ⟨(build_spec _ hvalid).1, (build_spec _ hvalid).2.1⟩

/-- Witness for C7: `class('a').class('b').class('c')` builds without error
and serializes to `.a.b.c`. -/
theorem repeatable_kinds_accept_repetition_witness :
    (build ((Kind.cls, "a") :: ["b", "c"].map fun w => (Kind.cls, w))).err
      = none ∧
    (build ((Kind.cls, "a") :: ["b", "c"].map fun w => (Kind.cls, w))).sel.stringify
      = ".a.b.c" := by
  have h := repeatable_kinds_accept_repetition Kind.cls (Or.inl rfl) "a"
    ["b", "c"]
  exact ⟨h.1, by rw [h.2]; decide⟩

/-- Claim C8: `combine` never raises for any operands and any combinator
token, performs no validation of its own (its result is independent of the
shared validation array), and leaves the shared array unchanged. -/
theorem combine_never_raises (arr : List Kind) (l : SelVal) (c : String)
    (r : SelVal) :
    (combineCall arr l c r).1 = Except.ok (combine l c r) ∧
    (combineCall arr l c r).2 = arr ∧
    ∀ arr' : List Kind, (combineCall arr' l c r).1 = (combineCall arr l c r).1 :=
  ⟨rfl, rfl, fun _ => rfl⟩

/-- Claim C9: a fragment operand whose serialized string is empty — here
already built by `element` on the empty payload — is falsy at the
`classResStr` probe, so the
combinator node serializes with the literal text `undefined` in its place,
whatever the token and the other operand. -/
theorem combine_empty_fragment_renders_undefined (c : String) (r : SelVal) :
    (seed Kind.element "").err = none ∧
    (seed Kind.element "").sel.classResStr = "" ∧
    (combine (SelVal.frag (seed Kind.element "").sel) c r).stringify
      = "undefined" ++ " " ++ c ++ " " ++ operandStr r :=
  ⟨by decide, rfl, rfl⟩

/-- Claim C10: a combinator node's serialization is computed once at
construction (`combineStr` of the operands' states at that moment) and is
unchanged by any later replacement of the operand objects' states (the model
of mutating the referenced operands after the `combine` call). -/
theorem combine_serialization_constant_after_mutation
    (l r l' r' : SelVal) (c : String) :
    (setOperands (combine l c r) l' r').stringify = (combine l c r).stringify ∧
    (combine l c r).stringify = combineStr l c r :=
  ⟨rfl, rfl⟩


end CssBuilder
